import Mathlib

/-!
Verification development for the refindgen boot-catalog synchronization tool.

The Rust sources are embedded shallowly:
* file paths are strings; path components are obtained by splitting on the
  slash character with structural recursion so everything evaluates;
* the on-disk state of the boot partition is a finite map from path to file
  content (a byte list), modelled as a function into Option;
* the FileTracker HashMap is modelled as a finite map from path to used flag;
* fallible operations return Except.
-/

namespace Refindgen

/-! ## Path helpers (model of std::path operations used by the sources) -/

/-- Split a character list on the slash separator, mirroring how
std::path decomposes a path into components. -/
def splitOnSlash (cs : List Char) : List (List Char) :=
  cs.foldr
    (fun c acc =>
      match acc with
      | [] => if c = '/' then [[], []] else [[c]]
      | g :: gs => if c = '/' then [] :: g :: gs else (c :: g) :: gs)
    [[]]

/-- Model of Path::file_name on a canonical path: the last slash-separated
component. -/
def fileNameOf (p : String) : String :=
  ((splitOnSlash p.toList).getLastD []).asString

/-- Model of path.parent().file_name(): the next-to-last slash-separated
component. -/
def parentNameOf (p : String) : String :=
  (((splitOnSlash p.toList).dropLast).getLastD []).asString

/-- Index of the last dot of a file name that is eligible to start an
extension under the rules of std::path: the dot must not be the first
character. -/
def lastDotIdx (cs : List Char) : Option Nat :=
  ((List.range cs.length).filter
    (fun i => decide (0 < i) && decide (cs.getD i ' ' = '.'))).getLast?

/-- Model of Path::with_extension("tmp") on a single file name: replace the
extension when there is one, otherwise append ".tmp". -/
def withExtTmpName (name : String) : String :=
  match lastDotIdx name.toList with
  | some i => (name.toList.take i).asString ++ ".tmp"
  | none => name ++ ".tmp"

/-- Model of dest.with_extension("tmp") from src/fs.rs: the extension
replacement applies to the final path component only. -/
def tempPath (dest : String) : String :=
  let parts : List (List Char) := splitOnSlash dest.toList
  ((splitOnSlash dest.toList).dropLast.map (fun g => g.asString ++ "/")).foldr
    (fun a b => a ++ b) ""
    ++ withExtTmpName (parts.getLastD []).asString

/-! ## Filesystem model -/

/-- The visible file map of the machine: path to file content (byte list).
Directories are not modelled; create_dir_all changes nothing here. -/
def FS : Type := String → Option (List Nat)

/-- Write or overwrite one file. -/
def fsSet (fs : FS) (p : String) (c : List Nat) : FS :=
  fun q => if q = p then some c else fs q

/-- Remove one file. -/
def fsRemove (fs : FS) (p : String) : FS :=
  fun q => if q = p then none else fs q

theorem fsSet_apply_ne (fs : FS) (p q : String) (c : List Nat) (h : q ≠ p) :
    fsSet fs p c q = fs q := by
  simp [fsSet, h]

theorem fsSet_apply_self (fs : FS) (p : String) (c : List Nat) :
    fsSet fs p c p = some c := by
  simp [fsSet]

/-! ## FileTracker (src/fs.rs) -/

/-- The tracker HashMap<PathBuf, bool>, as a finite map from path to the
used flag. -/
def FileTracker : Type := String → Option Bool

/-- FileTracker::new walks the base directory and registers every regular
file found, each initially unused. The walk result is the list of file
paths found on disk. -/
def FileTracker.new (disk : List String) : FileTracker :=
  fun p => if p ∈ disk then some false else none

/-- FileTracker::mark_used inserts the path with the flag set, replacing
any previous flag. -/
def FileTracker.markUsed (t : FileTracker) (p : String) : FileTracker :=
  fun q => if q = p then some true else t q

/-- FileTracker::cleanup removes every tracked-and-still-unused path that
exists. The per-entry deletion loop touches pairwise distinct paths, so its
net effect on the set of on-disk files is order independent and equals this
filter. -/
def FileTracker.cleanup (t : FileTracker) (fs : List String) : List String :=
  fs.filter (fun f => !(t f == some false))

theorem foldl_markUsed_apply (M : List String) (t : FileTracker) (f : String) :
    (M.foldl FileTracker.markUsed t) f = if f ∈ M then some true else t f := by
  induction M generalizing t with
  | nil => simp
  | cons p rest ih =>
      simp only [List.foldl_cons, ih, FileTracker.markUsed, List.mem_cons]
      by_cases hp : f = p <;> by_cases hr : f ∈ rest <;> simp [hp, hr]

/-! ## Atomic file operations (src/fs.rs) -/

/-- The intermediate states while the content is written into the
temporary sibling: one state per prefix of the content, starting with the
empty truncation. -/
def partialStates (fs : FS) (t : String) (c : List Nat) : List FS :=
  (List.range (c.length + 1)).map (fun k => fsSet fs t (c.take k))

/-- The state after the atomic rename of the temporary sibling onto the
destination. -/
def renameResult (fs : FS) (t dest : String) (c : List Nat) : FS :=
  fsSet (fsRemove (fsSet fs t c) t) dest c

/-- The sequence of filesystem states a reader can observe while
copy_atomic runs: the initial state (ensuring the parent directory exists
changes no file), one state per prefix of the source content written into
the temporary sibling, and the state after the atomic rename. Failure at
any step strands the run in one of the states before the last. When the
source cannot be read, std::fs::copy fails before creating the temporary
file. -/
def copyAtomicStates (fs : FS) (src dest : String) : List FS :=
  match fs src with
  | none => [fs]
  | some c =>
      fs :: (partialStates fs (tempPath dest) c
        ++ [renameResult fs (tempPath dest) dest c])

/-- The same observable sequence for write_atomic: File::create truncates
the temporary sibling, each write extends it, sync_all and drop change no
content, and the rename is atomic. -/
def writeAtomicStates (fs : FS) (dest : String) (data : List Nat) : List FS :=
  fs :: (partialStates fs (tempPath dest) data
    ++ [renameResult fs (tempPath dest) dest data])

/-- Net effect of a completed copy_atomic call, used by the staging code:
the temporary sibling is written and then renamed onto the destination. -/
def copyAtomicResult (fs : FS) (src dest : String) : Except String FS :=
  match fs src with
  | none => Except.error "Failed to copy"
  | some c => Except.ok (renameResult fs (tempPath dest) dest c)

/-! ## Boot specification model (src/bootspec.rs) -/

/-- The versioned base record of the descriptor document
(org.nixos.bootspec.v1). Paths are strings. -/
structure BootSpecV1 where
  system : String
  init : String
  kernel : String
  kernelParams : List String
  label : String
  toplevel : String
  initrd : Option String
  initrdSecrets : Option String
deriving DecidableEq

/-- The descriptor document: a versioned base record together with the
versioned mapping of specialisation sub-documents. The HashMap of
sub-documents is modelled as an association list whose order is the
iteration order the map would produce. -/
inductive BootJson : Type where
  | mk (bootspec : BootSpecV1) (specialisation : List (String × BootJson)) : BootJson

def BootJson.bootspec : BootJson → BootSpecV1
  | .mk b _ => b

def BootJson.specialisation : BootJson → List (String × BootJson)
  | .mk _ s => s

/-- The in-memory BootSpec of src/bootspec.rs: the same fields with no
version wrapper, specialisations as a mapping from name to record. -/
inductive BootSpec : Type where
  | mk (system : String) (init : String) (kernel : String)
      (kernelParams : List String) (label : String) (toplevel : String)
      (initrd : Option String) (initrdSecrets : Option String)
      (specialisations : List (String × BootSpec)) : BootSpec

def BootSpec.system : BootSpec → String
  | .mk s _ _ _ _ _ _ _ _ => s

def BootSpec.init : BootSpec → String
  | .mk _ i _ _ _ _ _ _ _ => i

def BootSpec.kernel : BootSpec → String
  | .mk _ _ k _ _ _ _ _ _ => k

def BootSpec.kernelParams : BootSpec → List String
  | .mk _ _ _ p _ _ _ _ _ => p

def BootSpec.label : BootSpec → String
  | .mk _ _ _ _ l _ _ _ _ => l

def BootSpec.toplevel : BootSpec → String
  | .mk _ _ _ _ _ t _ _ _ => t

def BootSpec.initrd : BootSpec → Option String
  | .mk _ _ _ _ _ _ i _ _ => i

def BootSpec.initrdSecrets : BootSpec → Option String
  | .mk _ _ _ _ _ _ _ s _ => s

def BootSpec.specialisations : BootSpec → List (String × BootSpec)
  | .mk _ _ _ _ _ _ _ _ sp => sp

mutual

/-- BootSpec::from_boot_json: strip the version wrapper and convert every
specialisation sub-document recursively. -/
def fromBootJson : BootJson → BootSpec
  | .mk b specs =>
      .mk b.system b.init b.kernel b.kernelParams b.label b.toplevel
        b.initrd b.initrdSecrets (fromBootJsonList specs)

def fromBootJsonList : List (String × BootJson) → List (String × BootSpec)
  | [] => []
  | (k, v) :: rest => (k, fromBootJson v) :: fromBootJsonList rest

end

mutual

/-- Depth of a descriptor tree: one for the base record plus the deepest
specialisation. -/
def depthJson : BootJson → Nat
  | .mk _ specs => 1 + depthListJson specs

def depthListJson : List (String × BootJson) → Nat
  | [] => 0
  | (_, v) :: rest => max (depthJson v) (depthListJson rest)

end

/-- Lookup of a specialisation sub-document by name. -/
def lookupSpecJson : List (String × BootJson) → String → Option BootJson
  | [], _ => none
  | (k, v) :: rest, name => if k = name then some v else lookupSpecJson rest name

/-- Lookup of a specialisation record by name in the in-memory form. -/
def lookupSpecRec : List (String × BootSpec) → String → Option BootSpec
  | [], _ => none
  | (k, v) :: rest, name => if k = name then some v else lookupSpecRec rest name

/-- Descend along a list of specialisation names in the descriptor. -/
def descendJson : BootJson → List String → Option BootJson
  | t, [] => some t
  | t, n :: ns =>
      match lookupSpecJson t.specialisation n with
      | some u => descendJson u ns
      | none => none

/-- Descend along a list of specialisation names in the loaded form. -/
def descendRec : BootSpec → List String → Option BootSpec
  | t, [] => some t
  | t, n :: ns =>
      match lookupSpecRec t.specialisations n with
      | some u => descendRec u ns
      | none => none

/-- All fields of a loaded record agree with the descriptor record it came
from, and the specialisation names are the same. -/
def fieldsAgree (r : BootSpec) (u : BootJson) : Prop :=
  r.system = u.bootspec.system ∧ r.init = u.bootspec.init ∧
  r.kernel = u.bootspec.kernel ∧ r.kernelParams = u.bootspec.kernelParams ∧
  r.label = u.bootspec.label ∧ r.toplevel = u.bootspec.toplevel ∧
  r.initrd = u.bootspec.initrd ∧ r.initrdSecrets = u.bootspec.initrdSecrets ∧
  r.specialisations.map Prod.fst = u.specialisation.map Prod.fst

/-! ## Kernel staging (src/generation.rs, copy_kernel_to_efi) -/

/-- Destination file name: the store directory name and the file name of
the canonicalized source, joined by a dash. -/
def destFileName (source : String) : String :=
  parentNameOf source ++ "-" ++ fileNameOf source

/-- Destination path under the rEFInd directory. -/
def kernelsDestPath (refindDir source : String) : String :=
  refindDir ++ "/kernels/" ++ destFileName source

/-- The URI returned to the menu text, relative to the EFI mount. -/
def kernelUri (source : String) : String :=
  "/efi/refind/kernels/" ++ destFileName source

/-- State threaded through the synthesis pass: the boot partition files and
the tracker. -/
structure StageState where
  fs : FS
  tracker : FileTracker

/-- copy_kernel_to_efi from src/generation.rs. The source argument is the
already canonicalized store path. When the destination exists no copy is
performed; otherwise the file is copied atomically. The destination is
marked used in the tracker and the menu URI is returned. -/
def copyKernelToEfi (refindDir source : String) (st : StageState) :
    Except String (String × StageState) :=
  let dest := kernelsDestPath refindDir source
  if (st.fs dest).isSome then
    Except.ok (kernelUri source, ⟨st.fs, st.tracker.markUsed dest⟩)
  else
    match copyAtomicResult st.fs source dest with
    | Except.error e => Except.error e
    | Except.ok fs2 => Except.ok (kernelUri source, ⟨fs2, st.tracker.markUsed dest⟩)

/-! ## Menu entry synthesis (src/generation.rs) -/

/-- The options line of format_boot_entry: init=(init path) followed by the
kernel parameter list, joined by spaces, between double quotes. No escaping
is applied to the parameters. -/
def joinSpace : List String → String
  | [] => ""
  | [x] => x
  | x :: rest => x ++ " " ++ joinSpace rest

def optionsLine (init : String) (params : List String) : String :=
  "  options \"" ++ joinSpace (("init=" ++ init) :: params) ++ "\"\n"

/-- The text of one menu entry, as a pure function of the record and the
label. The staged URIs are pure functions of the store paths, so the text
does not depend on the filesystem. -/
def formatBootEntryText (isSub : Bool) (b : BootSpec) (label : String) : String :=
  match b.initrd with
  | none =>
      (if isSub then "sub" else "") ++ "menuentry \"" ++ label ++ "\" \x7b\n"
        ++ "  loader " ++ kernelUri b.kernel ++ "\n"
        ++ optionsLine b.init b.kernelParams ++ "\x7d\n"
  | some i =>
      (if isSub then "sub" else "") ++ "menuentry \"" ++ label ++ "\" \x7b\n"
        ++ "  loader " ++ kernelUri b.kernel ++ "\n"
        ++ "  initrd " ++ kernelUri i ++ "\n"
        ++ optionsLine b.init b.kernelParams ++ "\x7d\n"

/-- format_boot_entry from src/generation.rs: stage the kernel, stage the
initrd when present, then assemble the entry text; the question-mark
operator on each staging call propagates its error. The timestamp argument
of the source is unused there and is omitted. -/
def formatBootEntry (isSub : Bool) (b : BootSpec) (label refindDir : String)
    (st : StageState) : Except String (String × StageState) :=
  match copyKernelToEfi refindDir b.kernel st with
  | Except.error e => Except.error e
  | Except.ok (kuri, st1) =>
      match b.initrd with
      | none =>
          Except.ok ((if isSub then "sub" else "") ++ "menuentry \"" ++ label
            ++ "\" \x7b\n" ++ "  loader " ++ kuri ++ "\n"
            ++ optionsLine b.init b.kernelParams ++ "\x7d\n", st1)
      | some i =>
          match copyKernelToEfi refindDir i st1 with
          | Except.error e => Except.error e
          | Except.ok (iuri, st2) =>
              Except.ok ((if isSub then "sub" else "") ++ "menuentry \"" ++ label
                ++ "\" \x7b\n" ++ "  loader " ++ kuri ++ "\n"
                ++ "  initrd " ++ iuri ++ "\n"
                ++ optionsLine b.init b.kernelParams ++ "\x7d\n", st2)

/-- One submenu entry per specialisation, in the iteration order of the
specialisation map, each staging its own files. -/
def formatSpecEntries (specs : List (String × BootSpec)) (refindDir : String)
    (st : StageState) : Except String (String × StageState) :=
  match specs with
  | [] => Except.ok ("", st)
  | (name, sb) :: rest =>
      match formatBootEntry true sb name refindDir st with
      | Except.error e => Except.error e
      | Except.ok (e, st1) =>
          match formatSpecEntries rest refindDir st1 with
          | Except.error e2 => Except.error e2
          | Except.ok (es, st2) => Except.ok (e ++ es, st2)

/-- The submenu texts of the specialisations in iteration order, as a pure
function of the records. -/
def specEntriesText : List (String × BootSpec) → String
  | [] => ""
  | (name, sb) :: rest => formatBootEntryText true sb name ++ specEntriesText rest

/-- generate_config_entry from src/generation.rs, for one generation whose
record is already loaded. With specialisations, an outer container holds
the Default subentry for the base record followed by one subentry per
specialisation; otherwise one flat entry is emitted. -/
def generateConfigEntry (b : BootSpec) (groupName : String) (generation : Nat)
    (refindDir : String) (st : StageState) : Except String (String × StageState) :=
  if b.specialisations.isEmpty then
    formatBootEntry false b ("NixOS " ++ groupName ++ " Generation " ++ toString generation)
      refindDir st
  else
    match formatBootEntry true b "Default" refindDir st with
    | Except.error e => Except.error e
    | Except.ok (defE, st1) =>
        match formatSpecEntries b.specialisations refindDir st1 with
        | Except.error e2 => Except.error e2
        | Except.ok (specsE, st2) =>
            Except.ok ("menuentry \"NixOS " ++ groupName ++ " Generation "
              ++ toString generation ++ "\" \x7b\n" ++ defE ++ specsE ++ "\x7d\n", st2)

/-- The text a run that completes returns, for stating determinism facts. -/
def textOfRes : Except String (String × StageState) → Option String
  | Except.ok p => some p.1
  | Except.error _ => none

/-! ## Quote escaping and dry-run entry text (src/main.rs) -/

/-- escape_quotes from src/main.rs: every double-quote character is
replaced by two double-quote characters. -/
def escapeQuotesChars : List Char → List Char
  | [] => []
  | c :: rest =>
      if c = '"' then '"' :: '"' :: escapeQuotesChars rest
      else c :: escapeQuotesChars rest

def escapeQuotes (s : String) : String :=
  (escapeQuotesChars s.toList).asString

/-- Number of double-quote characters in a string. -/
def countQuotes (s : String) : Nat :=
  s.toList.count '"'

/-- Model of str::trim: drop whitespace from both ends. -/
def trimChars (cs : List Char) : List Char :=
  ((cs.dropWhile Char.isWhitespace).reverse.dropWhile Char.isWhitespace).reverse

def rustTrim (s : String) : String :=
  (trimChars s.toList).asString

/-- submenu_entry from src/main.rs: the dry-run generator quotes its
options line through escape_quotes. -/
def submenuEntry (number : Nat) (description loader initrd kernelParams : String) :
    String :=
  "\nsubmenuentry \"Generation " ++ toString number ++ " " ++ description
    ++ "\" \x7b\n    loader " ++ loader ++ "\n    initrd " ++ initrd
    ++ "\n    options \"" ++ escapeQuotes (rustTrim kernelParams) ++ "\"\n\x7d\n"

/-! ## Dry-run destination naming (src/main.rs, efi_target_for_store) -/

/-- efi_target_for_store from src/main.rs: the rEFInd-visible path derived
from the store directory name and the file name of the store path. -/
def efiTargetForStoreRel (storeFile : String) : String :=
  "/efi/nixos/" ++ parentNameOf storeFile ++ "-" ++ fileNameOf storeFile ++ ".efi"

/-! ## Firmware entry reconciliation (src/efi.rs) -/

/-- One NVRAM boot entry as listed by the firmware tool. -/
structure FirmwareEntry where
  id : String
  label : String
  loader : String
deriving DecidableEq

/-- The firmware table: the entries plus the global boot order. -/
structure FirmwareState where
  entries : List FirmwareEntry
  order : List String
deriving DecidableEq

/-- The pattern match over the efibootmgr listing that recovers the id of
the rEFInd entry: the first listed entry carrying the rEFInd label. -/
def findExistingEntry (fw : FirmwareState) : Option String :=
  (fw.entries.find? (fun e => e.label == "rEFInd")).map (fun e => e.id)

/-- Semantics of efibootmgr -b id -B: the entry is removed and its id
drops out of the boot order. -/
def deleteEntry (fw : FirmwareState) (i : String) : FirmwareState :=
  ⟨fw.entries.filter (fun e => !(e.id == i)),
   fw.order.filter (fun j => !(j == i))⟩

/-- Semantics of efibootmgr -c -b id -d disk -p part -l loader -L rEFInd
-o order: an entry with the requested id is created and the boot order is
set to the supplied order. -/
def createEntryWithId (fw : FirmwareState) (i loader : String)
    (order : List String) : FirmwareState :=
  ⟨fw.entries ++ [⟨i, "rEFInd", loader⟩], order⟩

/-- The existing-entry branch of setup_efi_boot_entry: capture the current
boot order, delete the old entry, then recreate it with the same id and
the captured order. -/
def reconcileExisting (fw : FirmwareState) (entryId loader : String) :
    FirmwareState :=
  let bootOrder := fw.order
  let fw1 := deleteEntry fw entryId
  createEntryWithId fw1 entryId loader bootOrder

/-- The exit-status control flow of setup_efi_boot_entry. The initial
listing checks output.status.success(); the delete invocation only applies
the question-mark operator to the spawn result of .output(), so its exit
status is never examined; both create invocations check .status. The three
Nat arguments are the exit codes the firmware tool returns at the listing,
delete and create steps. -/
def setupEfiExitFlow (existing : Option String)
    (listExit deleteExit createExit : Nat) : Except String Unit :=
  if listExit ≠ 0 then Except.error "efibootmgr failed"
  else
    match existing with
    | some _ =>
        if createExit ≠ 0 then Except.error "efibootmgr failed to create boot entry"
        else Except.ok ()
    | none =>
        if createExit ≠ 0 then Except.error "efibootmgr failed to create boot entry"
        else Except.ok ()

/-! ## Default generation selection (src/main.rs) -/

/-- The ambient symlink environment the selection reads: read_link and
canonicalize, each returning none on failure. -/
structure SelEnv where
  readLink : String → Option String
  canonicalize : String → Option String

/-- One generation identity. -/
structure Gen where
  profile : Option String
  number : Nat
deriving DecidableEq

/-- system_dir from src/main.rs. -/
def systemDir : Option String → Nat → String
  | some p, n =>
      "/nix/var/nix/profiles/system-profiles/" ++ p ++ "-" ++ toString n ++ "-link"
  | none, n => "/nix/var/nix/profiles/system-" ++ toString n ++ "-link"

/-- discover_default_target: the explicit profile pointer is tried first,
then the running-system pointer. -/
def discoverDefaultTarget (env : SelEnv) : Option String :=
  match env.readLink "/nix/var/nix/profiles/system" with
  | some t => some t
  | none => env.readLink "/run/current-system"

/-- path_eq: compare after canonicalize, falling back to the raw path when
canonicalize fails. -/
def canonD (env : SelEnv) (p : String) : String :=
  (env.canonicalize p).getD p

def pathEq (env : SelEnv) (a b : String) : Bool :=
  canonD env a == canonD env b

/-- find_generation_by_target: the first generation whose resolved system
link target compares equal to the discovered target. -/
def findGenerationByTarget (env : SelEnv) (gens : List Gen) (target : String) :
    Option Gen :=
  gens.find? (fun g =>
    let link := systemDir g.profile g.number
    pathEq env ((env.readLink link).getD link) target)

/-- newest_generation: max_by_key over the number, keeping the later
element on ties, as Iterator::max_by_key does. The source expects a
non-empty slice; the empty case is given a dummy value. -/
def newestGeneration (gens : List Gen) : Gen :=
  match gens with
  | [] => ⟨none, 0⟩
  | g :: rest => rest.foldl (fun best x => if best.number ≤ x.number then x else best) g

/-- The default-selection of generate_config_string lines 76 to 81. -/
def defaultGeneration (env : SelEnv) (gens : List Gen) : Gen :=
  match discoverDefaultTarget env with
  | some target => (findGenerationByTarget env gens target).getD (newestGeneration gens)
  | none => newestGeneration gens

/-! ## Theorems for the claims -/

/-- C2: FileTracker cleanup removes exactly the unused files and is
idempotent. For files N registered by FileTracker::new and any subset M
marked used, cleanup keeps exactly the files of N that are in M (so it
deletes exactly N minus M and leaves every file of M untouched), and a
second cleanup directly afterwards removes nothing. -/
theorem fileTracker_cleanup_exact_and_idempotent (N M : List String) :
    (∀ f, f ∈ (M.foldl FileTracker.markUsed (FileTracker.new N)).cleanup N ↔
      (f ∈ N ∧ f ∈ M)) ∧
    (M.foldl FileTracker.markUsed (FileTracker.new N)).cleanup
        ((M.foldl FileTracker.markUsed (FileTracker.new N)).cleanup N) =
      (M.foldl FileTracker.markUsed (FileTracker.new N)).cleanup N := by
  constructor
  · intro f
    simp only [FileTracker.cleanup, List.mem_filter, foldl_markUsed_apply,
      FileTracker.new]
    by_cases hM : f ∈ M <;> by_cases hN : f ∈ N <;> simp [hM, hN]
  · simp [FileTracker.cleanup, List.filter_filter]

/-- C5 counterexample: in the existing-entry branch, a non-zero exit
status from the firmware tool at the delete step does not abort
reconciliation: with exit codes 0 (listing), 1 (delete) and 0 (create),
setup_efi_boot_entry still returns success, refuting the claim that a
non-zero exit at every tool-invoking step returns an error. -/
theorem setup_efi_delete_exit_ignored :
    setupEfiExitFlow (some "0001") 0 1 0 = Except.ok () := by
  rfl

/-- C5 amended: setup_efi_boot_entry succeeds exactly when the listing
step and the create step exit with zero; the exit status of the delete
step is never examined (only a failure to spawn the tool there is an
error). -/
theorem setup_efi_ok_iff_list_and_create_ok (existing : Option String)
    (listExit deleteExit createExit : Nat) :
    setupEfiExitFlow existing listExit deleteExit createExit = Except.ok () ↔
      (listExit = 0 ∧ createExit = 0) := by
  unfold setupEfiExitFlow
  cases existing <;> by_cases hl : listExit = 0 <;>
    by_cases hc : createExit = 0 <;> simp [hl, hc]

/-- C1: reconciling with an existing rEFInd entry of id E reuses the id E
(the rebuilt table has an entry with id E pointing at the new loader),
leaves the global boot order exactly as captured (so a boot order
[A, E, B] stays [A, E, B]), and preserves the other entries and their
relative order. -/
theorem efi_reconcile_preserves_id_and_order (fw : FirmwareState)
    (E loader : String) (h : findExistingEntry fw = some E) :
    ((⟨E, "rEFInd", loader⟩ : FirmwareEntry) ∈
        (reconcileExisting fw E loader).entries) ∧
    (reconcileExisting fw E loader).order = fw.order ∧
    ((reconcileExisting fw E loader).entries.filter (fun e => !(e.id == E)) =
      fw.entries.filter (fun e => !(e.id == E))) := by
  refine ⟨?_, rfl, ?_⟩
  · simp [reconcileExisting, createEntryWithId, deleteEntry]
  · simp [reconcileExisting, createEntryWithId, deleteEntry,
      List.filter_append, List.filter_filter]

/-- A firmware table holding a Windows entry, the rEFInd entry 0001 and a
further entry, in boot order 0000, 0001, 0002. -/
def fw0 : FirmwareState :=
  ⟨[⟨"0000", "Windows Boot Manager", "\\EFI\\Microsoft\\bootmgfw.efi"⟩,
    ⟨"0001", "rEFInd", "\\efi\\refind\\old.efi"⟩,
    ⟨"0002", "Linux", "\\vmlinuz"⟩],
   ["0000", "0001", "0002"]⟩

/-- C1 witness: the concrete table fw0 has the existing entry 0001 and
reconciling to a new loader path keeps its boot order. -/
theorem efi_reconcile_witness :
    findExistingEntry fw0 = some "0001" ∧
    (reconcileExisting fw0 "0001" "\\efi\\refind\\BOOTX64.EFI").order = fw0.order :=
  ⟨rfl, (efi_reconcile_preserves_id_and_order fw0 "0001"
    "\\efi\\refind\\BOOTX64.EFI" rfl).2.1⟩

/-- C10: when the derived destination already exists, copy_kernel_to_efi
performs no copy: the filesystem is returned unchanged (so the existing
bytes at the destination are untouched), the destination is only marked
used in the tracker, and the returned URI is the same pure function of the
store path as on first staging. -/
theorem staging_no_overwrite_existing (refindDir source : String)
    (st : StageState) (c : List Nat)
    (h : st.fs (kernelsDestPath refindDir source) = some c) :
    copyKernelToEfi refindDir source st =
      Except.ok (kernelUri source,
        ⟨st.fs, st.tracker.markUsed (kernelsDestPath refindDir source)⟩) ∧
    (∀ st2 u stOut, copyKernelToEfi refindDir source st2 = Except.ok (u, stOut) →
      u = kernelUri source) := by
  constructor
  · unfold copyKernelToEfi
    simp [h]
  · intro st2 u stOut h2
    by_cases hd : (st2.fs (kernelsDestPath refindDir source)).isSome
    · simp [copyKernelToEfi, hd] at h2
      exact h2.1.symm
    · simp only [copyKernelToEfi, hd, if_false, Bool.false_eq_true] at h2
      rcases h3 : copyAtomicResult st2.fs source (kernelsDestPath refindDir source)
        with e | fs2
      · rw [h3] at h2
        exact Except.noConfusion h2
      · rw [h3] at h2
        simp only [Except.ok.injEq, Prod.mk.injEq] at h2
        exact h2.1.symm

/-- A boot partition that already holds the staged kernel aaa-1-bzImage. -/
def stW : StageState :=
  ⟨fun p => if p = "/boot/efi/refind/kernels/aaa-1-bzImage" then some [5, 6] else none,
   fun _ => none⟩

/-- C10 witness: staging /nix/store/aaa-1/bzImage when its destination
already exists returns the same URI and leaves the filesystem as it was. -/
theorem staging_no_overwrite_witness :
    stW.fs (kernelsDestPath "/boot/efi/refind" "/nix/store/aaa-1/bzImage") =
      some [5, 6] ∧
    copyKernelToEfi "/boot/efi/refind" "/nix/store/aaa-1/bzImage" stW =
      Except.ok (kernelUri "/nix/store/aaa-1/bzImage",
        ⟨stW.fs, stW.tracker.markUsed
          (kernelsDestPath "/boot/efi/refind" "/nix/store/aaa-1/bzImage")⟩) :=
  ⟨rfl, (staging_no_overwrite_existing "/boot/efi/refind"
    "/nix/store/aaa-1/bzImage" stW [5, 6] rfl).1⟩

theorem mem_partialStates_dest (fs : FS) (t dest : String) (c : List Nat)
    (hne : dest ≠ t) : ∀ s ∈ partialStates fs t c, s dest = fs dest := by
  intro s hs
  simp only [partialStates, List.mem_map] at hs
  obtain ⟨k, _, rfl⟩ := hs
  exact fsSet_apply_ne fs t dest (c.take k) hne

theorem renameResult_dest (fs : FS) (t dest : String) (c : List Nat) :
    renameResult fs t dest c dest = some c :=
  fsSet_apply_self _ dest c

theorem dropLast_cons_concat {α : Type} (a : α) (l : List α) (x : α) :
    (a :: (l ++ [x])).dropLast = a :: l := by
  rw [show a :: (l ++ [x]) = (a :: l) ++ [x] from rfl]
  exact List.dropLast_concat

/-- C3 amended: for every destination whose temporary sibling path differs
from the destination itself (every destination not already carrying the
extension tmp), a failure of copy_atomic or write_atomic at any step
leaves the destination unchanged, and every observable state shows the
destination holding either its old content or the complete new content,
never a partial write; the temporary artifact never appears at the
destination path. -/
theorem atomic_ops_safe_when_temp_differs (fs : FS) (src dest : String)
    (data : List Nat) (h : tempPath dest ≠ dest) :
    (∀ s ∈ (copyAtomicStates fs src dest).dropLast, s dest = fs dest) ∧
    (∀ s ∈ copyAtomicStates fs src dest, s dest = fs dest ∨ s dest = fs src) ∧
    (∀ s ∈ (writeAtomicStates fs dest data).dropLast, s dest = fs dest) ∧
    (∀ s ∈ writeAtomicStates fs dest data, s dest = fs dest ∨ s dest = some data) := by
  have hne : dest ≠ tempPath dest := fun he => h he.symm
  refine ⟨?_, ?_, ?_, ?_⟩
  · intro s hs
    rcases hsrc : fs src with _ | c
    · simp [copyAtomicStates, hsrc] at hs
    · simp only [copyAtomicStates, hsrc] at hs
      rw [dropLast_cons_concat] at hs
      rcases List.mem_cons.mp hs with rfl | hmem
      · rfl
      · exact mem_partialStates_dest fs (tempPath dest) dest c hne s hmem
  · intro s hs
    rcases hsrc : fs src with _ | c
    · simp only [copyAtomicStates, hsrc, List.mem_singleton] at hs
      subst hs
      exact Or.inl rfl
    · simp only [copyAtomicStates, hsrc] at hs
      rcases List.mem_cons.mp hs with rfl | hmem
      · exact Or.inl rfl
      · rcases List.mem_append.mp hmem with hp | hlast
        · exact Or.inl (mem_partialStates_dest fs (tempPath dest) dest c hne s hp)
        · rcases List.mem_singleton.mp hlast with rfl
          exact Or.inr (renameResult_dest fs (tempPath dest) dest c)
  · intro s hs
    simp only [writeAtomicStates] at hs
    rw [dropLast_cons_concat] at hs
    rcases List.mem_cons.mp hs with rfl | hmem
    · rfl
    · exact mem_partialStates_dest fs (tempPath dest) dest data hne s hmem
  · intro s hs
    simp only [writeAtomicStates] at hs
    rcases List.mem_cons.mp hs with rfl | hmem
    · exact Or.inl rfl
    · rcases List.mem_append.mp hmem with hp | hlast
      · exact Or.inl (mem_partialStates_dest fs (tempPath dest) dest data hne s hp)
      · rcases List.mem_singleton.mp hlast with rfl
        exact Or.inr (renameResult_dest fs (tempPath dest) dest data)

/-- A filesystem holding one source file. -/
def fsW : FS := fun p => if p = "/boot/src" then some [1, 2] else none

/-- C3 witness: a regular destination name has a distinct temporary
sibling, and every state short of completion leaves the destination as it
was. -/
theorem atomic_ops_safe_witness :
    tempPath "/boot/kernels/aaa-bzImage" ≠ "/boot/kernels/aaa-bzImage" ∧
    (∀ s ∈ (copyAtomicStates fsW "/boot/src" "/boot/kernels/aaa-bzImage").dropLast,
      s "/boot/kernels/aaa-bzImage" = fsW "/boot/kernels/aaa-bzImage") :=
  ⟨by decide, (atomic_ops_safe_when_temp_differs fsW "/boot/src"
    "/boot/kernels/aaa-bzImage" [] (by decide)).1⟩

/-- C3 counterexample: for the destination /boot/foo.tmp the temporary
sibling computed by with_extension("tmp") is the destination itself, so a
failure in the middle of the copy (here after one of two bytes) leaves the
destination holding a partial file that was previously absent, refuting
the for-every-destination claim. -/
theorem copy_atomic_tmp_dest_partial_visible :
    tempPath "/boot/foo.tmp" = "/boot/foo.tmp" ∧
    fsW "/boot/foo.tmp" = none ∧
    ((copyAtomicStates fsW "/boot/src" "/boot/foo.tmp").dropLast.getD 2
      (fun _ => none)) "/boot/foo.tmp" = some [1] := by
  refine ⟨by decide, rfl, by decide⟩

/-- C4: the staging destination is the pure layout
refindDir/kernels/(storeDirName)-(fileName) of the canonical store path;
two store paths with the same store directory name and file name give the
identical destination (and the dry-run target of src/main.rs is equally
pure); staging the same source a second time finds the destination
present, copies nothing and returns the same URI. -/
theorem dest_naming_pure_and_dedup (refindDir s1 s2 : String) (st : StageState)
    (c : List Nat) (hsrc : st.fs s1 = some c)
    (hdir : parentNameOf s2 = parentNameOf s1)
    (hfile : fileNameOf s2 = fileNameOf s1) :
    kernelsDestPath refindDir s1 =
        refindDir ++ "/kernels/" ++ parentNameOf s1 ++ "-" ++ fileNameOf s1 ∧
    kernelsDestPath refindDir s2 = kernelsDestPath refindDir s1 ∧
    efiTargetForStoreRel s2 = efiTargetForStoreRel s1 ∧
    (∀ uri st1, copyKernelToEfi refindDir s1 st = Except.ok (uri, st1) →
      copyKernelToEfi refindDir s1 st1 =
        Except.ok (uri, ⟨st1.fs, st1.tracker.markUsed (kernelsDestPath refindDir s1)⟩)) := by
  refine ⟨by simp [kernelsDestPath, destFileName, String.append_assoc],
    by simp [kernelsDestPath, destFileName, hdir, hfile],
    by simp [efiTargetForStoreRel, hdir, hfile], ?_⟩
  intro uri st1 h1
  have hkey : uri = kernelUri s1 ∧
      (st1.fs (kernelsDestPath refindDir s1)).isSome := by
    by_cases hd : (st.fs (kernelsDestPath refindDir s1)).isSome
    · simp only [copyKernelToEfi, hd, if_true, Except.ok.injEq, Prod.mk.injEq] at h1
      obtain ⟨hu, hs⟩ := h1
      subst hs
      exact ⟨hu.symm, hd⟩
    · simp only [copyKernelToEfi, hd, if_false, Bool.false_eq_true] at h1
      rw [copyAtomicResult, hsrc] at h1
      simp only [Except.ok.injEq, Prod.mk.injEq] at h1
      obtain ⟨hu, hs⟩ := h1
      subst hs
      refine ⟨hu.symm, ?_⟩
      simp [renameResult_dest]
  obtain ⟨hu, hsome⟩ := hkey
  subst hu
  simp [copyKernelToEfi, hsome]

/-- A filesystem holding the store file aaa-1/bzImage. -/
def stW4 : StageState :=
  ⟨fun p => if p = "/nix/store/aaa-1/bzImage" then some [9] else none, fun _ => none⟩

/-- C4 witness: two paths sharing the store directory name and file name
map to the identical staging destination. -/
theorem dest_naming_witness :
    stW4.fs "/nix/store/aaa-1/bzImage" = some [9] ∧
    parentNameOf "/gen2/aaa-1/bzImage" = parentNameOf "/nix/store/aaa-1/bzImage" ∧
    kernelsDestPath "/boot/efi/refind" "/gen2/aaa-1/bzImage" =
      kernelsDestPath "/boot/efi/refind" "/nix/store/aaa-1/bzImage" :=
  ⟨rfl, by decide, (dest_naming_pure_and_dedup "/boot/efi/refind"
    "/nix/store/aaa-1/bzImage" "/gen2/aaa-1/bzImage" stW4 [9] rfl
    (by decide) (by decide)).2.1⟩

theorem foldl_newest_spec (g : Gen) (rest : List Gen) :
    (rest.foldl (fun best x => if best.number ≤ x.number then x else best) g) ∈ g :: rest ∧
    ∀ x ∈ g :: rest,
      x.number ≤ (rest.foldl (fun best x => if best.number ≤ x.number then x else best) g).number := by
  induction rest generalizing g with
  | nil => simp
  | cons y ys ih =>
      rw [List.foldl_cons]
      by_cases hgy : g.number ≤ y.number
      · rw [if_pos hgy]
        obtain ⟨hmem, hbound⟩ := ih y
        refine ⟨?_, ?_⟩
        · rcases List.mem_cons.mp hmem with he | hm
          · rw [he]
            exact List.mem_cons_of_mem _ (List.mem_cons_self _ _)
          · exact List.mem_cons_of_mem _ (List.mem_cons_of_mem _ hm)
        · intro x hx
          rcases List.mem_cons.mp hx with rfl | hx2
          · exact le_trans hgy (hbound y (List.mem_cons_self _ _))
          · exact hbound x hx2
      · rw [if_neg hgy]
        obtain ⟨hmem, hbound⟩ := ih g
        refine ⟨?_, ?_⟩
        · rcases List.mem_cons.mp hmem with he | hm
          · rw [he]
            exact List.mem_cons_self _ _
          · exact List.mem_cons_of_mem _ (List.mem_cons_of_mem _ hm)
        · intro x hx
          rcases List.mem_cons.mp hx with rfl | hx2
          · exact hbound x (List.mem_cons_self _ _)
          rcases List.mem_cons.mp hx2 with rfl | hx3
          · exact le_trans (Nat.le_of_not_le hgy) (hbound g (List.mem_cons_self _ _))
          · exact hbound x (List.mem_cons_of_mem _ hx3)

theorem newestGeneration_spec (gens : List Gen) (hne : gens ≠ []) :
    newestGeneration gens ∈ gens ∧
    ∀ g ∈ gens, g.number ≤ (newestGeneration gens).number := by
  match gens, hne with
  | g :: rest, _ =>
      simpa [newestGeneration] using foldl_newest_spec g rest

/-- C8: the default selection first tries the explicit profile pointer,
then the running-system pointer; a discovered target is matched against
the generations by comparing resolved link targets; when nothing is
discovered, or the target matches no generation, the selected default is
the newest generation, which carries the highest generation number. -/
theorem default_generation_two_tier_fallback (env : SelEnv) (gens : List Gen)
    (hne : gens ≠ []) :
    (∀ t, env.readLink "/nix/var/nix/profiles/system" = some t →
        discoverDefaultTarget env = some t) ∧
    (env.readLink "/nix/var/nix/profiles/system" = none →
        discoverDefaultTarget env = env.readLink "/run/current-system") ∧
    (discoverDefaultTarget env = none →
        defaultGeneration env gens = newestGeneration gens) ∧
    (∀ t, discoverDefaultTarget env = some t →
        findGenerationByTarget env gens t = none →
        defaultGeneration env gens = newestGeneration gens) ∧
    (∀ t g, discoverDefaultTarget env = some t →
        findGenerationByTarget env gens t = some g →
        defaultGeneration env gens = g ∧ g ∈ gens ∧
        pathEq env ((env.readLink (systemDir g.profile g.number)).getD
          (systemDir g.profile g.number)) t = true) ∧
    newestGeneration gens ∈ gens ∧
    (∀ g ∈ gens, g.number ≤ (newestGeneration gens).number) := by
  obtain ⟨hmem, hmax⟩ := newestGeneration_spec gens hne
  refine ⟨?_, ?_, ?_, ?_, ?_, hmem, hmax⟩
  · intro t ht
    simp [discoverDefaultTarget, ht]
  · intro ht
    simp [discoverDefaultTarget, ht]
  · intro ht
    simp [defaultGeneration, ht]
  · intro t ht hf
    simp [defaultGeneration, ht, hf]
  · intro t g ht hf
    have hf2 : gens.find? (fun g2 =>
        pathEq env ((env.readLink (systemDir g2.profile g2.number)).getD
          (systemDir g2.profile g2.number)) t) = some g := hf
    refine ⟨by simp [defaultGeneration, ht, hf], ?_, ?_⟩
    · exact List.mem_of_find?_eq_some hf2
    · simpa using List.find?_some hf2

/-- An environment in which neither system pointer resolves. -/
def envNone : SelEnv := ⟨fun _ => none, fun _ => none⟩

/-- Three generations of the default profile. -/
def gens3 : List Gen := [⟨none, 1⟩, ⟨none, 2⟩, ⟨none, 3⟩]

/-- C8 witness: with no resolvable active link and generations 1, 2, 3 the
default falls back to generation 3, the highest number. -/
theorem default_generation_witness :
    defaultGeneration envNone gens3 = newestGeneration gens3 ∧
    newestGeneration gens3 = ⟨none, 3⟩ :=
  ⟨((default_generation_two_tier_fallback envNone gens3 (by decide)).2.2.1) rfl,
   by decide⟩

theorem fromBootJson_specialisations (t : BootJson) :
    (fromBootJson t).specialisations = fromBootJsonList t.specialisation := by
  cases t
  simp [fromBootJson, BootSpec.specialisations, BootJson.specialisation]

theorem lookup_fromBootJsonList (l : List (String × BootJson)) (name : String) :
    lookupSpecRec (fromBootJsonList l) name =
      (lookupSpecJson l name).map fromBootJson := by
  induction l with
  | nil => simp [fromBootJsonList, lookupSpecRec, lookupSpecJson]
  | cons p rest ih =>
      obtain ⟨k, v⟩ := p
      simp only [fromBootJsonList, lookupSpecRec, lookupSpecJson]
      by_cases hk : k = name <;> simp [hk, ih]

theorem map_fst_fromBootJsonList (l : List (String × BootJson)) :
    (fromBootJsonList l).map Prod.fst = l.map Prod.fst := by
  induction l with
  | nil => simp [fromBootJsonList]
  | cons p rest ih =>
      obtain ⟨k, v⟩ := p
      simp [fromBootJsonList, ih]

theorem fieldsAgree_fromBootJson (u : BootJson) :
    fieldsAgree (fromBootJson u) u := by
  cases u with
  | mk b specs =>
      simp [fieldsAgree, fromBootJson, BootSpec.system, BootSpec.init,
        BootSpec.kernel, BootSpec.kernelParams, BootSpec.label, BootSpec.toplevel,
        BootSpec.initrd, BootSpec.initrdSecrets, BootSpec.specialisations,
        BootJson.bootspec, BootJson.specialisation, map_fst_fromBootJsonList]

theorem descend_fromBootJson (path : List String) (t : BootJson) :
    descendRec (fromBootJson t) path = (descendJson t path).map fromBootJson := by
  induction path generalizing t with
  | nil => simp [descendRec, descendJson]
  | cons n ns ih =>
      simp only [descendRec, descendJson, fromBootJson_specialisations,
        lookup_fromBootJsonList]
      cases h : lookupSpecJson t.specialisation n with
      | none => simp
      | some u => simpa using ih u

/-- C6: for every descriptor document of depth at least two, loading
recovers every specialisation by name at every nesting level (descending
along any name path in the loaded tree mirrors the descriptor), the lookup
of each direct specialisation by name returns the converted sub-record,
and every converted record keeps all eight fields and the specialisation
names of its descriptor record, with the version wrapper gone. -/
theorem bootspec_load_roundtrip (t : BootJson) (hd : 2 ≤ depthJson t) :
    (∀ path, descendRec (fromBootJson t) path =
        (descendJson t path).map fromBootJson) ∧
    (∀ name sub, lookupSpecJson t.specialisation name = some sub →
        lookupSpecRec (fromBootJson t).specialisations name =
          some (fromBootJson sub)) ∧
    (∀ u : BootJson, fieldsAgree (fromBootJson u) u) := by
  refine ⟨fun path => descend_fromBootJson path t, ?_,
    fun u => fieldsAgree_fromBootJson u⟩
  intro name sub hlook
  rw [fromBootJson_specialisations, lookup_fromBootJsonList, hlook]
  rfl

/-- The base record of a concrete two-level descriptor. -/
def baseV1 : BootSpecV1 :=
  ⟨"x86_64-linux", "/sw/init", "/nix/store/k0-1/bzImage", ["quiet"],
   "base", "/nix/store/top0", none, none⟩

/-- The specialisation record of the concrete descriptor. -/
def subV1 : BootSpecV1 :=
  ⟨"x86_64-linux", "/sw/init-vm", "/nix/store/k1-1/bzImage", [],
   "vm", "/nix/store/top1", some "/nix/store/ird1", none⟩

/-- A concrete descriptor of depth two: a base record with one
specialisation named vm. -/
def doc0 : BootJson := .mk baseV1 [("vm", .mk subV1 [])]

/-- C6 witness: the concrete descriptor has depth two and descending to vm
in the loaded tree returns the converted sub-record. -/
theorem bootspec_load_roundtrip_witness :
    2 ≤ depthJson doc0 ∧
    descendRec (fromBootJson doc0) ["vm"] =
      (descendJson doc0 ["vm"]).map fromBootJson := by
  have hd : 2 ≤ depthJson doc0 := by
    simp [doc0, depthJson, depthListJson]
  exact ⟨hd, (bootspec_load_roundtrip doc0 hd).1 ["vm"]⟩

theorem copyKernelToEfi_ok_uri (refindDir source : String) (st : StageState)
    (u : String) (stOut : StageState)
    (h : copyKernelToEfi refindDir source st = Except.ok (u, stOut)) :
    u = kernelUri source := by
  by_cases hd : (st.fs (kernelsDestPath refindDir source)).isSome
  · simp [copyKernelToEfi, hd] at h
    exact h.1.symm
  · simp only [copyKernelToEfi, hd, if_false, Bool.false_eq_true] at h
    rcases h3 : copyAtomicResult st.fs source (kernelsDestPath refindDir source)
      with e | fs2
    · rw [h3] at h
      exact Except.noConfusion h
    · rw [h3] at h
      simp only [Except.ok.injEq, Prod.mk.injEq] at h
      exact h.1.symm

theorem string_append_empty (s : String) : s ++ "" = s := by
  cases s
  show String.mk _ = String.mk _
  simp

theorem formatBootEntry_ok_text (isSub : Bool) (b : BootSpec)
    (label refindDir : String) (st : StageState) (out : String) (st2 : StageState)
    (h : formatBootEntry isSub b label refindDir st = Except.ok (out, st2)) :
    out = formatBootEntryText isSub b label := by
  unfold formatBootEntry at h
  rcases hk : copyKernelToEfi refindDir b.kernel st with e | ⟨kuri, st1⟩
  · rw [hk] at h
    exact Except.noConfusion h
  · rw [hk] at h
    have hku : kuri = kernelUri b.kernel := copyKernelToEfi_ok_uri _ _ _ _ _ hk
    cases hi : b.initrd with
    | none =>
        rw [hi] at h
        dsimp only [] at h
        simp only [Except.ok.injEq, Prod.mk.injEq] at h
        rw [← h.1, hku]
        simp [formatBootEntryText, hi]
    | some i =>
        rw [hi] at h
        dsimp only [] at h
        rcases hk2 : copyKernelToEfi refindDir i st1 with e2 | ⟨iuri, st2b⟩
        · rw [hk2] at h
          exact Except.noConfusion h
        · rw [hk2] at h
          dsimp only [] at h
          simp only [Except.ok.injEq, Prod.mk.injEq] at h
          have hiu : iuri = kernelUri i := copyKernelToEfi_ok_uri _ _ _ _ _ hk2
          rw [← h.1, hku, hiu]
          simp [formatBootEntryText, hi]

theorem formatSpecEntries_ok_text (specs : List (String × BootSpec))
    (refindDir : String) :
    ∀ st out st2, formatSpecEntries specs refindDir st = Except.ok (out, st2) →
      out = specEntriesText specs := by
  induction specs with
  | nil =>
      intro st out st2 h
      simp only [formatSpecEntries, Except.ok.injEq, Prod.mk.injEq] at h
      rw [← h.1]
      rfl
  | cons p rest ih =>
      intro st out st2 h
      obtain ⟨name, sb⟩ := p
      simp only [formatSpecEntries] at h
      rcases h1 : formatBootEntry true sb name refindDir st with e | ⟨e1, st1⟩
      · rw [h1] at h
        exact Except.noConfusion h
      · rw [h1] at h
        dsimp only [] at h
        rcases h2 : formatSpecEntries rest refindDir st1 with e2 | ⟨es, stb⟩
        · rw [h2] at h
          exact Except.noConfusion h
        · rw [h2] at h
          dsimp only [] at h
          simp only [Except.ok.injEq, Prod.mk.injEq] at h
          rw [← h.1, formatBootEntry_ok_text true sb name refindDir st e1 st1 h1,
            ih st1 es stb h2]
          rfl

/-- C7 amended: for a record with specialisations, a completed
generate_config_entry run emits exactly one outer menu container holding
first the Default subentry for the base record and then one subentry per
specialisation labelled with its name, each text a pure function of the
records; the output is determined by the record together with the
iteration order of the specialisation map (which the HashMap leaves
unspecified across runs). -/
theorem generate_config_entry_nested_structure (b : BootSpec) (groupName : String)
    (generation : Nat) (refindDir : String) (st : StageState) (out : String)
    (st2 : StageState) (hspec : b.specialisations ≠ [])
    (h : generateConfigEntry b groupName generation refindDir st =
      Except.ok (out, st2)) :
    out = "menuentry \"NixOS " ++ groupName ++ " Generation " ++ toString generation
        ++ "\" \x7b\n" ++ formatBootEntryText true b "Default"
        ++ specEntriesText b.specialisations ++ "\x7d\n" := by
  unfold generateConfigEntry at h
  rcases hb : b.specialisations with _ | ⟨q, qs⟩
  · exact absurd hb hspec
  · rw [hb] at h
    rw [if_neg (by simp)] at h
    rcases h1 : formatBootEntry true b "Default" refindDir st with e | ⟨defE, st1⟩
    · rw [h1] at h
      exact Except.noConfusion h
    · rw [h1] at h
      dsimp only [] at h
      rcases h2 : formatSpecEntries (q :: qs) refindDir st1 with e2 | ⟨specsE, stb⟩
      · rw [h2] at h
        exact Except.noConfusion h
      · rw [h2] at h
        dsimp only [] at h
        simp only [Except.ok.injEq, Prod.mk.injEq] at h
        rw [← h.1, formatBootEntry_ok_text true b "Default" refindDir st defE st1 h1,
          formatSpecEntries_ok_text (q :: qs) refindDir st1 specsE stb h2]

/-- A specialisation record with its own kernel. -/
def subRecW : BootSpec :=
  .mk "x86_64-linux" "/sw/init-vm" "/nix/store/k1-1/bzImage" [] "vm" "/t1"
    none none []

/-- A base record with one specialisation named vm. -/
def bW : BootSpec :=
  .mk "x86_64-linux" "/sw/init" "/nix/store/k0-1/bzImage" ["quiet"] "base" "/t0"
    none none [("vm", subRecW)]

/-- A filesystem holding both kernels and an empty tracker. -/
def stWC : StageState :=
  ⟨fun p => if p = "/nix/store/k0-1/bzImage" then some [0]
    else if p = "/nix/store/k1-1/bzImage" then some [1] else none,
   fun _ => none⟩

def genResW : Except String (String × StageState) :=
  generateConfigEntry bW "system" 3 "/boot/efi/refind" stWC

def outW : String :=
  match genResW with
  | Except.ok p => p.1
  | Except.error e => e

def stAfterW : StageState :=
  match genResW with
  | Except.ok p => p.2
  | Except.error _ => stWC

/-- C7 witness: the concrete record bW with one specialisation produces
the outer container with the Default subentry first and the vm subentry
after it. -/
theorem generate_config_entry_witness :
    outW = "menuentry \"NixOS " ++ "system" ++ " Generation " ++ toString 3
      ++ "\" \x7b\n" ++ formatBootEntryText true bW "Default"
      ++ specEntriesText bW.specialisations ++ "\x7d\n" :=
  generate_config_entry_nested_structure bW "system" 3 "/boot/efi/refind" stWC
    outW stAfterW (by simp [bW, BootSpec.specialisations]) rfl

/-- A first specialisation record. -/
def subRecA : BootSpec :=
  .mk "x86_64-linux" "/sw/init-a" "/nix/store/ka-1/bzImage" [] "alpha" "/ta"
    none none []

/-- A second specialisation record. -/
def subRecB : BootSpec :=
  .mk "x86_64-linux" "/sw/init-b" "/nix/store/kb-1/bzImage" [] "beta" "/tb"
    none none []

/-- The same base record with the two specialisations listed in one
HashMap iteration order. -/
def bP1 : BootSpec :=
  .mk "x86_64-linux" "/sw/init" "/nix/store/k0-1/bzImage" [] "base" "/t0"
    none none [("alpha", subRecA), ("beta", subRecB)]

/-- The same base record with the two specialisations listed in the other
iteration order. -/
def bP2 : BootSpec :=
  .mk "x86_64-linux" "/sw/init" "/nix/store/k0-1/bzImage" [] "base" "/t0"
    none none [("beta", subRecB), ("alpha", subRecA)]

/-- A filesystem holding the three kernels. -/
def stP : StageState :=
  ⟨fun p => if p = "/nix/store/k0-1/bzImage" then some [0]
    else if p = "/nix/store/ka-1/bzImage" then some [1]
    else if p = "/nix/store/kb-1/bzImage" then some [2] else none,
   fun _ => none⟩

/-- C7 counterexample: the two records carry the same specialisation map
(the association lists are permutations of one another), yet the emitted
menu texts differ; since the HashMap iteration order is unspecified and
seeded per process, two runs on the same inputs need not emit identical
menu text, refuting the determinism part of the claim. -/
theorem generate_config_entry_order_dependent :
    bP1.specialisations.Perm bP2.specialisations ∧
    textOfRes (generateConfigEntry bP1 "system" 3 "/r" stP) ≠
      textOfRes (generateConfigEntry bP2 "system" 3 "/r" stP) ∧
    (textOfRes (generateConfigEntry bP1 "system" 3 "/r" stP)).isSome = true := by
  refine ⟨?_, by decide, by decide⟩
  show ([("alpha", subRecA), ("beta", subRecB)] : List (String × BootSpec)).Perm
    [("beta", subRecB), ("alpha", subRecA)]
  exact List.Perm.swap _ _ _

theorem toList_append (a b : String) : (a ++ b).toList = a.toList ++ b.toList := by
  cases a
  cases b
  rfl

theorem toList_asString (l : List Char) : l.asString.toList = l := rfl

theorem data_asString (l : List Char) : l.asString.data = l := rfl

theorem countQuotes_append (a b : String) :
    countQuotes (a ++ b) = countQuotes a + countQuotes b := by
  simp [countQuotes, toList_append, List.count_append]

theorem count_escapeQuotesChars (cs : List Char) :
    (escapeQuotesChars cs).count '"' = 2 * cs.count '"' := by
  induction cs with
  | nil => simp [escapeQuotesChars]
  | cons c rest ih =>
      by_cases hc : c = '"'
      · subst hc
        simp only [escapeQuotesChars, if_pos rfl, List.count_cons, ih]
        simp
        omega
      · simp only [escapeQuotesChars, if_neg hc, List.count_cons, ih]
        simp [hc]

theorem countQuotes_escapeQuotes (s : String) :
    countQuotes (escapeQuotes s) = 2 * countQuotes s := by
  simp [countQuotes, escapeQuotes, toList_asString, data_asString,
    count_escapeQuotesChars]

theorem countQuotes_joinSpace (xs : List String) :
    countQuotes (joinSpace xs) = (xs.map countQuotes).sum := by
  induction xs with
  | nil => simp [joinSpace, countQuotes]
  | cons x rest ih =>
      cases rest with
      | nil => simp [joinSpace, countQuotes]
      | cons y ys =>
          rw [show joinSpace (x :: y :: ys) = x ++ " " ++ joinSpace (y :: ys) from rfl,
            countQuotes_append, countQuotes_append, ih]
          rw [show countQuotes " " = 0 from rfl]
          simp

/-- C9 amended: format_boot_entry builds the options line as init=(init
path) followed by the parameter list space-joined between two quote
characters, treating parameters as opaque strings and applying no quote
escaping there, so the emitted quote count is two plus the raw quote count
of the parameters; quote-doubling exists only in the dry-run generator of
src/main.rs, whose escape_quotes doubles every quote and whose
submenu_entry passes its params line through it. -/
theorem options_line_build_and_escape_props (init : String) (params : List String)
    (s : String) (n : Nat) (d l i kp : String) :
    optionsLine init params =
      "  options \"" ++ joinSpace (("init=" ++ init) :: params) ++ "\"\n" ∧
    countQuotes (optionsLine init params) =
      2 + countQuotes init + (params.map countQuotes).sum ∧
    countQuotes (escapeQuotes s) = 2 * countQuotes s ∧
    submenuEntry n d l i kp =
      "\nsubmenuentry \"Generation " ++ toString n ++ " " ++ d
        ++ "\" \x7b\n    loader " ++ l ++ "\n    initrd " ++ i
        ++ "\n    options \"" ++ escapeQuotes (rustTrim kp) ++ "\"\n\x7d\n" := by
  refine ⟨rfl, ?_, countQuotes_escapeQuotes s, rfl⟩
  show countQuotes ("  options \"" ++ joinSpace (("init=" ++ init) :: params)
    ++ "\"\n") = _
  rw [countQuotes_append, countQuotes_append, countQuotes_joinSpace,
    List.map_cons, List.sum_cons, countQuotes_append,
    show countQuotes "  options \"" = 1 from rfl,
    show countQuotes "\"\n" = 1 from rfl,
    show countQuotes "init=" = 0 from rfl]
  omega

/-- C9 counterexample: a kernel parameter containing a quote character is
emitted verbatim by format_boot_entry; the emitted line differs from the
quote-doubled rendering and carries an odd number of quote characters, so
not every quote inside the parameter string is escaped by doubling in this
emitted configuration text. -/
theorem options_line_quote_not_escaped :
    optionsLine "/sw/init" ["a\"b"] = "  options \"init=/sw/init a\"b\"\n" ∧
    optionsLine "/sw/init" ["a\"b"] ≠
      "  options \"" ++ escapeQuotes ("init=/sw/init a\"b") ++ "\"\n" ∧
    countQuotes (optionsLine "/sw/init" ["a\"b"]) = 3 := by
  refine ⟨rfl, by decide, by decide⟩

end Refindgen
